import Mathlib

/-!
Verification of the hotbox-desktop telemetry pipeline.

This file gives a shallow embedding of the numeric and stream-processing
core of the repository (`src/ble_handler.py`, `src/main.py`) and proves
properties of it: payload decoding, the queue-draining stream aligner with
forward-fill, elapsed-time computation, moving-average smoothing, the
rate-of-rise estimator, the spike filter, and the CSV session
writer / ghost-profile reader pair.

Machine reals are modelled by `ℚ` (every quantity the code manipulates is
produced by exact integer arithmetic, division and averaging).
-/

namespace Hotbox

/-- A byte of a BLE notification payload. -/
abbrev Byte := Fin 256

/-- Unsigned little-endian value of a byte string (first byte least
significant). -/
def le_value : List Byte → ℕ
  | [] => 0
  | b :: bs => b.val + 256 * le_value bs

/-- Signed 32-bit little-endian interpretation of a 4-byte payload: the value
`struct.unpack("<i", data)[0]` computes in `ble_handler.py`. -/
def int32_le (data : List Byte) : ℤ :=
  if le_value data < 2 ^ 31 then (le_value data : ℤ) else (le_value data : ℤ) - 2 ^ 32

/-- `BLEHandler._decode_temperature` (src/ble_handler.py lines 21-25):
returns `struct.unpack("<i", data)[0] / 100`.  `struct.unpack("<i", ...)`
raises `struct.error` unless the payload is exactly 4 bytes; that exception is
the `Except.error` branch. -/
def decode_temperature (data : List Byte) : Except Unit ℚ :=
  if data.length = 4 then Except.ok ((int32_le data : ℚ) / 100) else Except.error ()

/-- Temperature produced by `BLEHandler._callback` (src/ble_handler.py lines
27-31): `temp = None if not data else self._decode_temperature(data)`.  Only
an empty payload (a falsy bytearray) short-circuits to `None`; for any other
payload the decoder runs, and a decode exception propagates out of the
callback (the `Except.error` branch, in which case nothing is enqueued). -/
def callback_temp (data : List Byte) : Except Unit (Option ℚ) :=
  if data = [] then Except.ok none else (decode_temperature data).map some

/-- The backward scan of `calculate_ror` (src/main.py lines 222-227): for
`j = m, m-1, ..., 0` return the first `j` with `times[j] <= target`; if none
qualifies, `start_idx` keeps its initial value `0`. -/
def find_start_idx (times : List ℚ) (target : ℚ) : ℕ → ℕ
  | 0 => 0
  | j + 1 => if times.getD (j + 1) 0 ≤ target then j + 1 else find_start_idx times target j

/-- `RoasterMonitor.calculate_ror` (src/main.py lines 205-240).  Mirrors the
source loop: an empty result for fewer than two points, `0` at index `0`,
otherwise the backward-window difference quotient scaled to degrees per
minute. -/
def calculate_ror (times temps : List ℚ) (window_seconds : ℚ) : List ℚ :=
  if times.length < 2 ∨ temps.length < 2 then []
  else
    (List.range times.length).map fun i =>
      if i = 0 then 0
      else
        let target := times.getD i 0 - window_seconds
        let start_idx := find_start_idx times target (i - 1)
        let time_diff := times.getD i 0 - times.getD start_idx 0
        let temp_diff := temps.getD i 0 - temps.getD start_idx 0
        if 0 < time_diff then temp_diff / time_diff * 60 else 0

/-- `np.convolve(x, np.ones(window)/window, 'valid')` as used by `update_plot`
(src/main.py lines 340-341): the right-aligned moving average of length
`N - window + 1` (for `window ≤ N`). -/
def smooth_valid (x : List ℚ) (window : ℕ) : List ℚ :=
  (List.range (x.length + 1 - window)).map fun k =>
    ((x.drop k).take window).sum / (window : ℚ)

/-- `times_smooth = times[self.smooth_window-1:]` (src/main.py line 342). -/
def times_smooth (times : List ℚ) (window : ℕ) : List ℚ :=
  times.drop (window - 1)

/-- The two notification channels: `ENV_SENSE_TEMP1_UUID` feeds
`grill_temp_data`, the other characteristic feeds `drum_temp_data`. -/
inductive ChannelUUID
  | temp1
  | temp2
deriving DecidableEq

/-- One `(timestamp, uuid, temp)` tuple taken from the handoff queue
(`src/main.py` line 291).  The temperature is `Option ℚ` because the BLE
callback may enqueue `None`. -/
structure RawSample where
  timestamp : ℚ
  uuid : ChannelUUID
  temp : Option ℚ
deriving DecidableEq

/-- The parallel history deques of `RoasterMonitor` (`timestamps`,
`grill_temp_data`, `drum_temp_data`, each `deque(maxlen=3600)`).  The
`iso_timestamps` deque parallels `timestamps` entry for entry and carries no
numeric content, so it is not tracked here. -/
structure AlignState where
  timestamps : List ℚ
  grill_temp_data : List (Option ℚ)
  drum_temp_data : List (Option ℚ)
deriving DecidableEq

/-- `deque(maxlen=...)` append: the oldest entry is dropped from the left once
capacity would be exceeded. -/
def dappend (maxlen : ℕ) (xs : List α) (x : α) : List α :=
  let ys := xs ++ [x]
  if maxlen < ys.length then ys.drop (ys.length - maxlen) else ys

/-- One iteration of the queue-draining loop of `update_plot` (src/main.py
lines 290-304): append the timestamp, append the temperature to its channel,
and forward-fill the other channel (with its last value, or `None` if it has
none yet) whenever it has fallen behind. -/
def process_sample (st : AlignState) (s : RawSample) : AlignState :=
  let timestamps := dappend 3600 st.timestamps s.timestamp
  match s.uuid with
  | ChannelUUID.temp1 =>
    let grill := dappend 3600 st.grill_temp_data s.temp
    let drum :=
      if st.drum_temp_data.length < grill.length then
        dappend 3600 st.drum_temp_data (st.drum_temp_data.getLast?.getD none)
      else st.drum_temp_data
    ⟨timestamps, grill, drum⟩
  | ChannelUUID.temp2 =>
    let drum := dappend 3600 st.drum_temp_data s.temp
    let grill :=
      if st.grill_temp_data.length < drum.length then
        dappend 3600 st.grill_temp_data (st.grill_temp_data.getLast?.getD none)
      else st.grill_temp_data
    ⟨timestamps, grill, drum⟩

/-- History state before any sample has been processed. -/
def initState : AlignState := ⟨[], [], []⟩

/-- Draining a whole finite sequence of queued samples, oldest first. -/
def process_samples (samples : List RawSample) : AlignState :=
  samples.foldl process_sample initState

/-- A value stored in `self.timestamps`: either a `datetime` (`dt`, measured
in seconds of wall-clock time) or a numeric timestamp (`num`, what
`asyncio.get_event_loop().time()` in the BLE handler actually produces). -/
inductive PyTimestamp
  | dt (v : ℚ)
  | num (v : ℚ)
deriving DecidableEq

/-- Seconds value carried by a stored timestamp. -/
def PyTimestamp.val : PyTimestamp → ℚ
  | PyTimestamp.dt v => v
  | PyTimestamp.num v => v

/-- The elapsed-time computation of `update_plot` (src/main.py lines
309-322), also repeated verbatim in `save_data` (lines 497-505).  The branch
on `isinstance(self.timestamps[0], datetime)` becomes a match on the head
timestamp's constructor; in the numeric branch the source subtracts
`self.timestamps[0]` (bound to the local name `start_timestamp`), not the
session's `start_time`. -/
def compute_times (roast_started : Bool) (start_time : Option ℚ)
    (timestamps : List PyTimestamp) : List ℚ :=
  match timestamps.head? with
  | none => []
  | some t0 =>
    if roast_started ∧ start_time.isSome then
      match t0 with
      | PyTimestamp.dt _ => timestamps.map fun t => t.val - start_time.getD 0
      | PyTimestamp.num _ => timestamps.map fun t => t.val - t0.val
    else
      timestamps.map fun t => t.val - t0.val

/-- Which branch of `filter_spike` produced the result, mirroring the three
print statements and the early-return of the source. -/
inductive SpikeStatus
  | insufficient
  | accepted
  | bufferAvg
  | spike
deriving DecidableEq

/-- Result of one `filter_spike` call: the returned value and the contents of
`self._spike_buffer` after the call. -/
structure SpikeOutput where
  value : ℚ
  buffer : List ℚ
  status : SpikeStatus
deriving DecidableEq

/-- `RoasterMonitor.filter_spike` (src/main.py lines 547-578).  The source
also computes `std_dev = statistics.stdev(recent_values)` floored at 1, but
that quantity is used only in a printed log line and never in the returned
value or the buffer update, so it does not appear in the embedding.  The
acceptance comparison is `abs(new_value - mean) <= std_multiplier`, exactly as
written in the source (the multiplier is not scaled by `std_dev`). -/
def filter_spike (spike_buffer : List ℚ) (new_value : ℚ) (data : List ℚ)
    (window : ℕ) (std_multiplier : ℚ) (grace_period : ℕ) : SpikeOutput :=
  if data.length < window then
    ⟨new_value, [], SpikeStatus.insufficient⟩
  else
    let recent_values := data.drop (data.length - window)
    let mean := recent_values.sum / (recent_values.length : ℚ)
    if |new_value - mean| ≤ std_multiplier then
      ⟨new_value, [], SpikeStatus.accepted⟩
    else
      let buf := spike_buffer ++ [new_value]
      if grace_period ≤ buf.length then
        ⟨buf.sum / (buf.length : ℚ), [], SpikeStatus.bufferAvg⟩
      else
        ⟨data.getLast?.getD 0, buf, SpikeStatus.spike⟩

/-- The data rows `save_data` writes (src/main.py lines 510-531).  Each file
line is `f"{iso},{grill},{drum},{ror:.2f}"`; no field contains a comma, so a
line is modelled by the list of its comma-separated fields.  `fmt` models
Python `str` applied to a stored temperature (possibly `None`) and `fmt2`
models the `:.2f` rendering of the rate of rise; `ror[i] if i < len(ror)
else 0` becomes `ror.getD i 0`.  The row loop runs over
`zip(iso_timestamps, grill_temp_data, drum_temp_data)`, hence the `min` of
the three lengths. -/
def save_rows (fmt : Option ℚ → String) (fmt2 : ℚ → String)
    (iso_timestamps : List String)
    (grill_temp_data drum_temp_data : List (Option ℚ)) (ror : List ℚ) :
    List (List String) :=
  (List.range (min iso_timestamps.length
      (min grill_temp_data.length drum_temp_data.length))).map fun i =>
    [iso_timestamps.getD i "", fmt (grill_temp_data.getD i none),
      fmt (drum_temp_data.getD i none), fmt2 (ror.getD i 0)]

/-- One iteration of the row loop of `load_ghost_profile` (src/main.py lines
401-413): a row whose comma-separated field count differs from 3 is skipped
(`continue`), as is a row whose temperature fields fail to parse (`parseF`
models Python `float(...)`; `none` models a raised `ValueError`).  `ip.1` is
the `enumerate` index, appended to `times` as the synthetic time base. -/
def load_ghost_row (parseF : String → Option ℚ)
    (acc : List ℕ × List ℚ × List ℚ) (ip : ℕ × List String) :
    List ℕ × List ℚ × List ℚ :=
  match ip.2 with
  | [_, grill_str, drum_str] =>
    match parseF grill_str, parseF drum_str with
    | some grill, some drum =>
      (acc.1 ++ [ip.1], acc.2.1 ++ [grill], acc.2.2 ++ [drum])
    | _, _ => acc
  | _ => acc

/-- The `(times, grill_temps, drum_temps)` lists `load_ghost_profile` builds
from the data lines of a CSV file (the header line is already consumed by
`next(f)`). -/
def load_ghost_rows (parseF : String → Option ℚ) (rows : List (List String)) :
    List ℕ × List ℚ × List ℚ :=
  rows.enum.foldl (load_ghost_row parseF) ([], [], [])

/-! ## Helper lemmas -/

theorem getD_map_range {f : ℕ → ℚ} {n i : ℕ} (h : i < n) (d : ℚ) :
    ((List.range n).map f).getD i d = f i := by
  rw [List.getD_eq_getElem _ _ (by simpa using h)]
  simp

theorem dappend_length (maxlen : ℕ) (xs : List α) (x : α) :
    (dappend maxlen xs x).length = min (xs.length + 1) maxlen := by
  have hlen : (xs ++ [x]).length = xs.length + 1 := by simp
  simp only [dappend]
  split_ifs with h
  · rw [List.length_drop, hlen]
    rw [hlen] at h
    omega
  · rw [hlen]
    rw [hlen] at h
    omega

theorem mem_dappend {x v : α} {maxlen : ℕ} {xs : List α}
    (h : v ∈ dappend maxlen xs x) : v ∈ xs ∨ v = x := by
  simp only [dappend] at h
  split_ifs at h with hc
  · rcases List.mem_append.1 (List.mem_of_mem_drop h) with h' | h'
    · exact Or.inl h'
    · exact Or.inr (by simpa using h')
  · rcases List.mem_append.1 h with h' | h'
    · exact Or.inl h'
    · exact Or.inr (by simpa using h')

theorem getLast_getD_mem (l : List (Option ℚ)) :
    l.getLast?.getD none ∈ l ∨ l.getLast?.getD none = none := by
  cases hl : l.getLast? with
  | none => simp
  | some a =>
    left
    have ha : a ∈ l.getLast? := by simp [hl]
    obtain ⟨hne, hx⟩ := List.mem_getLast?_eq_getLast (l := l) ha
    simp only [hl, Option.getD_some]
    rw [hx]
    exact List.getLast_mem hne

/-! ## Claims about the payload decoder (C9, C4) -/

/-- Claim C9: a 4-byte payload decodes to its little-endian signed 32-bit
value divided by 100; a payload of any other length fails deterministically
(the decoder raises and never returns a value). -/
theorem decode_temperature_spec (data : List Byte) :
    (data.length = 4 → decode_temperature data = Except.ok ((int32_le data : ℚ) / 100))
    ∧ (data.length ≠ 4 → decode_temperature data = Except.error ()) := by
  constructor <;> intro h <;> simp [decode_temperature, h]

/-- Claim C4, counterexample: the 1-byte payload `[0]` does not produce an
absent temperature; the decode exception escapes the callback. -/
theorem callback_short_payload_raises :
    callback_temp [(0 : Byte)] = Except.error ()
    ∧ callback_temp [(0 : Byte)] ≠ Except.ok none := by
  constructor
  · rfl
  · intro h
    simp [callback_temp, decode_temperature, Except.map] at h

/-- Claim C4, amended: only an empty notification payload yields a sample
with an absent temperature (`None`); a non-empty payload whose length is not
4 bytes makes the decoder's exception propagate out of the callback, and a
4-byte payload yields the decoded temperature. -/
theorem callback_temp_spec (data : List Byte) :
    (data = [] → callback_temp data = Except.ok none)
    ∧ (data ≠ [] → data.length ≠ 4 → callback_temp data = Except.error ())
    ∧ (data.length = 4 → callback_temp data = Except.ok (some ((int32_le data : ℚ) / 100))) := by
  refine ⟨fun h => by simp [callback_temp, h], fun h h4 => ?_, fun h4 => ?_⟩
  · simp [callback_temp, h, decode_temperature, h4, Except.map]
  · have : data ≠ [] := by intro he; rw [he] at h4; simp at h4
    simp [callback_temp, this, decode_temperature, h4, Except.map]

/-! ## Claim about the session CSV round trip (C1) -/

theorem load_ghost_skips_4field_rows (parseF : String → Option ℚ) :
    ∀ (rows : List (ℕ × List String)) (acc : List ℕ × List ℚ × List ℚ),
      (∀ r ∈ rows, ∃ a b c d, r.2 = [a, b, c, d]) →
      rows.foldl (load_ghost_row parseF) acc = acc := by
  intro rows
  induction rows with
  | nil => intro acc _; rfl
  | cons r rs ih =>
    intro acc h
    rw [List.foldl_cons]
    obtain ⟨a, b, c, d, hr⟩ := h r (by simp)
    have hstep : load_ghost_row parseF acc r = acc := by
      simp only [load_ghost_row, hr]
    rw [hstep]
    exact ih acc fun r' hr' => h r' (by simp [hr'])

/-- Claim C1: loading the rows written by the session-CSV writer back through
the ghost-profile reader yields empty series, whatever the history was: every
saved row has four comma-separated fields and the loader skips any row whose
field count is not three.  (The claim asserts the temperature sequences are
preserved; they are lost instead.) -/
theorem ghost_load_of_save_is_empty (fmt : Option ℚ → String) (fmt2 : ℚ → String)
    (parseF : String → Option ℚ) (iso_timestamps : List String)
    (grill_temp_data drum_temp_data : List (Option ℚ)) (ror : List ℚ) :
    load_ghost_rows parseF
        (save_rows fmt fmt2 iso_timestamps grill_temp_data drum_temp_data ror)
      = ([], [], []) := by
  apply load_ghost_skips_4field_rows
  intro r hr
  have h2 : r.2 ∈ save_rows fmt fmt2 iso_timestamps grill_temp_data drum_temp_data ror := by
    have := List.mem_enum_iff_getElem?.1 hr
    exact List.getElem?_mem this
  simp only [save_rows, List.mem_map] at h2
  obtain ⟨i, _, hi⟩ := h2
  exact ⟨_, _, _, _, hi.symm⟩

/-! ## Claims about the spike filter (C2, C3) -/

/-- Claim C2: with at least 10 values of history, `filter_spike` takes its
accept branch exactly when the candidate is within `std_multiplier` of the
mean of the last 10 values — the multiplier is an absolute threshold, the
same for every history, so the decision does not involve the standard
deviation — and on acceptance it returns the candidate itself with the
outlier buffer cleared. -/
theorem filter_spike_accept_iff (spike_buffer data : List ℚ) (c m : ℚ)
    (grace : ℕ) (h : 10 ≤ data.length) :
    ((filter_spike spike_buffer c data 10 m grace).status = SpikeStatus.accepted
      ↔ |c - (data.drop (data.length - 10)).sum / 10| ≤ m)
    ∧ (|c - (data.drop (data.length - 10)).sum / 10| ≤ m →
        filter_spike spike_buffer c data 10 m grace
          = ⟨c, [], SpikeStatus.accepted⟩) := by
  have hlen : ((data.drop (data.length - 10)).length : ℚ) = 10 := by
    rw [List.length_drop]
    have h10 : data.length - (data.length - 10) = 10 := by omega
    rw [h10]
    norm_num
  simp only [filter_spike, hlen]
  rw [if_neg (by omega)]
  by_cases hc : |c - (data.drop (data.length - 10)).sum / 10| ≤ m
  · simp [hc]
  · refine ⟨?_, fun hin => absurd hin hc⟩
    rw [if_neg hc]
    constructor
    · intro hstatus
      exfalso
      revert hstatus
      split_ifs <;> simp
    · intro hin
      exact absurd hin hc

/-- Claim C2, witness: with history `[200] * 10` and a candidate `201`
inside the threshold, the filter accepts and returns the candidate with a
cleared buffer. -/
theorem filter_spike_accept_iff_w :
    filter_spike [5] 201 (List.replicate 10 200) 10 (5/2) 5
      = ⟨201, [], SpikeStatus.accepted⟩ :=
  (filter_spike_accept_iff [5] (List.replicate 10 200) 201 (5/2) 5 (by simp)).2
    (by norm_num [List.sum_replicate, abs_le])

/-- Claim C3: with history `[200.0] * 10` and rejected candidates `500.0`,
each of the first four rejections appends the candidate to the outlier
buffer and returns the previous accepted value `200.0`; the 5th consecutive
rejection (grace period 5) returns the average of the buffered outliers,
`500.0`, and clears the buffer. -/
theorem filter_spike_grace_chain :
    filter_spike [] 500 (List.replicate 10 200) 10 (5/2) 5
      = ⟨200, [500], SpikeStatus.spike⟩
    ∧ filter_spike [500] 500 (List.replicate 10 200) 10 (5/2) 5
      = ⟨200, [500, 500], SpikeStatus.spike⟩
    ∧ filter_spike [500, 500] 500 (List.replicate 10 200) 10 (5/2) 5
      = ⟨200, [500, 500, 500], SpikeStatus.spike⟩
    ∧ filter_spike [500, 500, 500] 500 (List.replicate 10 200) 10 (5/2) 5
      = ⟨200, [500, 500, 500, 500], SpikeStatus.spike⟩
    ∧ filter_spike [500, 500, 500, 500] 500 (List.replicate 10 200) 10 (5/2) 5
      = ⟨500, [], SpikeStatus.bufferAvg⟩ := by
  refine ⟨?_, ?_, ?_, ?_, ?_⟩ <;>
    norm_num [filter_spike, List.sum_replicate, abs_le, List.replicate, List.getLast?]

/-! ## Claims about the elapsed-time computation (C5) -/

/-- Claim C5, counterexample: with an active roast (`roast_started` set,
`start_time = 90`) and the numeric timestamps `[100, 105]` the BLE handler
produces, the code re-bases on the first sample and yields `[0, 5]`, not the
claimed `[100 - 90, 105 - 90]`. -/
theorem compute_times_active_numeric_cex :
    compute_times true (some 90) [PyTimestamp.num 100, PyTimestamp.num 105]
      = [0, 5]
    ∧ ([0, 5] : List ℚ) ≠ [100 - 90, 105 - 90] := by
  constructor
  · norm_num [compute_times, PyTimestamp.val]
  · intro h
    rw [List.cons.injEq] at h
    norm_num at h

/-- Claim C5, amended: when a roast session is active and the stored
timestamps are `datetime` objects, each sample's elapsed time is its capture
time minus the session's `start_time`; in every other case — numeric
timestamps (what the BLE handler actually enqueues) even during an active
session, or no active session — it is the capture time minus the first
sample's capture time. -/
theorem compute_times_spec (roast_started : Bool) (start_time : Option ℚ)
    (timestamps : List PyTimestamp) (t0 : PyTimestamp)
    (h0 : timestamps.head? = some t0) :
    ((roast_started = true ∧ start_time.isSome ∧ ∃ v, t0 = PyTimestamp.dt v) →
        compute_times roast_started start_time timestamps
          = timestamps.map fun t => t.val - start_time.getD 0)
    ∧ ((roast_started = false ∨ start_time = none ∨ ∀ v, t0 ≠ PyTimestamp.dt v) →
        compute_times roast_started start_time timestamps
          = timestamps.map fun t => t.val - t0.val) := by
  constructor
  · rintro ⟨hs, hsome, v, rfl⟩
    simp only [compute_times, h0]
    rw [if_pos ⟨by simp [hs], hsome⟩]
  · intro hcase
    simp only [compute_times, h0]
    rcases hcase with hs | hnone | hndt
    · rw [if_neg (by simp [hs])]
    · rw [if_neg (by simp [hnone])]
    · cases t0 with
      | dt v => exact absurd rfl (hndt v)
      | num v =>
        by_cases hc : roast_started = true ∧ start_time.isSome = true
        · rw [if_pos ⟨hc.1, hc.2⟩]
        · rw [if_neg (by simpa using hc)]

/-- Claim C5, witness: an active roast over `datetime` timestamps `[10, 12]`
with `start_time = 4` yields elapsed times relative to the session start. -/
theorem compute_times_spec_w :
    compute_times true (some 4) [PyTimestamp.dt 10, PyTimestamp.dt 12]
      = [10 - 4, 12 - 4] := by
  have h := (compute_times_spec true (some 4)
      [PyTimestamp.dt 10, PyTimestamp.dt 12] (PyTimestamp.dt 10) rfl).1
      ⟨rfl, rfl, 10, rfl⟩
  simpa [PyTimestamp.val] using h

/-! ## Claims about the stream aligner (C6, C10) -/

theorem process_sample_inv (st : AlignState) (s : RawSample)
    (h1 : st.grill_temp_data.length = st.timestamps.length)
    (h2 : st.drum_temp_data.length = st.timestamps.length)
    (h3 : st.timestamps.length ≤ 3600) :
    (process_sample st s).grill_temp_data.length
        = (process_sample st s).timestamps.length
    ∧ (process_sample st s).drum_temp_data.length
        = (process_sample st s).timestamps.length
    ∧ (process_sample st s).timestamps.length ≤ 3600 := by
  obtain ⟨ts, uuid, temp⟩ := s
  cases uuid <;>
    simp only [process_sample] <;>
    split_ifs <;>
    simp_all [dappend_length] <;>
    omega

theorem process_fold_inv (l : List RawSample) :
    ∀ st : AlignState,
      st.grill_temp_data.length = st.timestamps.length →
      st.drum_temp_data.length = st.timestamps.length →
      st.timestamps.length ≤ 3600 →
      (l.foldl process_sample st).grill_temp_data.length
          = (l.foldl process_sample st).timestamps.length
      ∧ (l.foldl process_sample st).drum_temp_data.length
          = (l.foldl process_sample st).timestamps.length
      ∧ (l.foldl process_sample st).timestamps.length ≤ 3600 := by
  induction l with
  | nil => intro st h1 h2 h3; simpa using ⟨h1, h2, h3⟩
  | cons s l ih =>
    intro st h1 h2 h3
    rw [List.foldl_cons]
    obtain ⟨g1, g2, g3⟩ := process_sample_inv st s h1 h2 h3
    exact ih _ g1 g2 g3

/-- Claim C6: after any prefix of a drained sample sequence — in particular
once both channels have produced at least one reading — the channel-A series,
the channel-B series and the timestamp series all have the same length:
forward-fill keeps the three histories length-synchronized after every
processed sample. -/
theorem aligned_series_length_eq (samples : List RawSample) (k : ℕ)
    (_hA : ∃ s ∈ samples.take k, s.uuid = ChannelUUID.temp1)
    (_hB : ∃ s ∈ samples.take k, s.uuid = ChannelUUID.temp2) :
    (process_samples (samples.take k)).grill_temp_data.length
        = (process_samples (samples.take k)).timestamps.length
    ∧ (process_samples (samples.take k)).drum_temp_data.length
        = (process_samples (samples.take k)).timestamps.length := by
  obtain ⟨g1, g2, -⟩ :=
    process_fold_inv (samples.take k) initState rfl rfl (by simp [initState])
  exact ⟨g1, g2⟩

/-- Claim C6, witness: one grill sample then one drum sample leave all three
series with equal lengths. -/
theorem aligned_series_length_eq_w :
    (process_samples (([⟨0, ChannelUUID.temp1, some 20⟩,
          ⟨1, ChannelUUID.temp2, some 21⟩] : List RawSample).take 2)).grill_temp_data.length
        = (process_samples (([⟨0, ChannelUUID.temp1, some 20⟩,
          ⟨1, ChannelUUID.temp2, some 21⟩] : List RawSample).take 2)).timestamps.length
    ∧ (process_samples (([⟨0, ChannelUUID.temp1, some 20⟩,
          ⟨1, ChannelUUID.temp2, some 21⟩] : List RawSample).take 2)).drum_temp_data.length
        = (process_samples (([⟨0, ChannelUUID.temp1, some 20⟩,
          ⟨1, ChannelUUID.temp2, some 21⟩] : List RawSample).take 2)).timestamps.length :=
  aligned_series_length_eq _ 2
    ⟨⟨0, ChannelUUID.temp1, some 20⟩, by simp⟩
    ⟨⟨1, ChannelUUID.temp2, some 21⟩, by simp⟩

theorem grill_mem_step (st : AlignState) (s : RawSample) (v : Option ℚ)
    (h : v ∈ (process_sample st s).grill_temp_data) :
    v ∈ st.grill_temp_data ∨ v = s.temp ∨ v = none := by
  obtain ⟨ts, uuid, temp⟩ := s
  cases uuid <;> simp only [process_sample] at h
  · rcases mem_dappend h with h' | h'
    · exact Or.inl h'
    · exact Or.inr (Or.inl h')
  · split_ifs at h with hc
    · rcases mem_dappend h with h' | h'
      · exact Or.inl h'
      · rcases getLast_getD_mem st.grill_temp_data with hm | hm
        · exact Or.inl (h' ▸ hm)
        · exact Or.inr (Or.inr (h' ▸ hm))
    · exact Or.inl h

theorem drum_mem_step (st : AlignState) (s : RawSample) (v : Option ℚ)
    (h : v ∈ (process_sample st s).drum_temp_data) :
    v ∈ st.drum_temp_data ∨ v = s.temp ∨ v = none := by
  obtain ⟨ts, uuid, temp⟩ := s
  cases uuid <;> simp only [process_sample] at h
  · split_ifs at h with hc
    · rcases mem_dappend h with h' | h'
      · exact Or.inl h'
      · rcases getLast_getD_mem st.drum_temp_data with hm | hm
        · exact Or.inl (h' ▸ hm)
        · exact Or.inr (Or.inr (h' ▸ hm))
    · exact Or.inl h
  · rcases mem_dappend h with h' | h'
    · exact Or.inl h'
    · exact Or.inr (Or.inl h')

theorem process_fold_raw (P : Option ℚ → Prop) (hnone : P none) :
    ∀ (l : List RawSample) (st : AlignState),
      (∀ v ∈ st.grill_temp_data, P v) →
      (∀ v ∈ st.drum_temp_data, P v) →
      (∀ s ∈ l, P s.temp) →
      (∀ v ∈ (l.foldl process_sample st).grill_temp_data, P v)
      ∧ (∀ v ∈ (l.foldl process_sample st).drum_temp_data, P v) := by
  intro l
  induction l with
  | nil => intro st hg hd _; simpa using ⟨hg, hd⟩
  | cons s l ih =>
    intro st hg hd hl
    rw [List.foldl_cons]
    refine ih _ ?_ ?_ fun s' hs' => hl s' (by simp [hs'])
    · intro v hv
      rcases grill_mem_step st s v hv with h | h | h
      · exact hg v h
      · exact h ▸ hl s (by simp)
      · exact h ▸ hnone
    · intro v hv
      rcases drum_mem_step st s v hv with h | h | h
      · exact hd v h
      · exact h ▸ hl s (by simp)
      · exact h ▸ hnone

/-- Claim C10: every value stored in a channel's series by the
queue-draining tick is either absent (`none`, the fill used before a channel
has any reading) or exactly the raw decoded temperature carried by one of
the drained samples — a forward-fill copy repeats such a value.  No
spike-filter output (in general a fresh buffer average) is ever stored:
`filter_spike` has no caller in the processing, display or save paths, so
the stored history that feeds the LCD displays and the saved CSV rows is
untouched by it. -/
theorem stored_values_are_raw (samples : List RawSample) :
    (process_samples samples).grill_temp_data.Forall
        (fun v => v = none ∨ ∃ s ∈ samples, v = s.temp)
    ∧ (process_samples samples).drum_temp_data.Forall
        (fun v => v = none ∨ ∃ s ∈ samples, v = s.temp) := by
  obtain ⟨hg, hd⟩ := process_fold_raw
      (fun v => v = none ∨ ∃ s ∈ samples, v = s.temp) (Or.inl rfl)
      samples initState (by simp [initState]) (by simp [initState])
      (fun s hs => Or.inr ⟨s, hs, rfl⟩)
  exact ⟨List.forall_iff_forall_mem.2 hg, List.forall_iff_forall_mem.2 hd⟩

/-! ## Claims about smoothing (C7) -/

theorem take_drop_window (x : List ℚ) (k window : ℕ) (h : k + window ≤ x.length) :
    (x.drop k).take window = (List.range window).map fun j => x.getD (k + j) 0 := by
  apply List.ext_get
  · simp only [List.length_take, List.length_drop, List.length_map, List.length_range]
    omega
  · intro n h1 h2
    have hn : n < window := by simpa using h2
    have hkn : k + n < x.length := by omega
    simp only [List.get_eq_getElem, List.getElem_take, List.getElem_drop,
      List.getElem_map, List.getElem_range]
    rw [List.getD_eq_getElem _ _ hkn]

/-- Claim C7: for a series of length `N ≥ W ≥ 1`, the smoothed output has
length `N - W + 1`; entry `k` is the arithmetic mean of the `W` inputs ending
at index `k + W - 1`, and its plotted timestamp is the input timestamp at
index `k + W - 1`; with `W = 1` the smoothed series is the raw series, and
with `W = N` it is the single arithmetic mean of the whole series. -/
theorem smooth_valid_spec (x t : List ℚ) (window : ℕ)
    (hw : 1 ≤ window) (hn : window ≤ x.length) (ht : t.length = x.length) :
    (smooth_valid x window).length = x.length - window + 1
    ∧ (∀ k, k < x.length - window + 1 →
        (smooth_valid x window).getD k 0
          = ((List.range window).map fun j => x.getD (k + j) 0).sum / (window : ℚ))
    ∧ (times_smooth t window).length = x.length - window + 1
    ∧ (∀ k, k < x.length - window + 1 →
        (times_smooth t window).getD k 0 = t.getD (k + window - 1) 0)
    ∧ (window = 1 → smooth_valid x window = x)
    ∧ (window = x.length → smooth_valid x window = [x.sum / (x.length : ℚ)]) := by
  refine ⟨?_, ?_, ?_, ?_, ?_, ?_⟩
  · simp only [smooth_valid, List.length_map, List.length_range]
    omega
  · intro k hk
    simp only [smooth_valid]
    rw [getD_map_range (by omega), take_drop_window x k window (by omega)]
  · simp only [times_smooth, List.length_drop]
    omega
  · intro k hk
    simp only [times_smooth]
    have hb1 : k < (t.drop (window - 1)).length := by
      simp only [List.length_drop]
      omega
    rw [List.getD_eq_getElem _ _ hb1, List.getElem_drop,
      List.getD_eq_getElem _ _ (by omega : k + window - 1 < t.length)]
    congr 1
    omega
  · intro h1
    subst h1
    apply List.ext_get
    · simp only [smooth_valid, List.length_map, List.length_range]
      omega
    · intro n h1 h2
      have hn : n < x.length := by
        simpa [smooth_valid] using h1
      simp only [smooth_valid, List.get_eq_getElem, List.getElem_map, List.getElem_range]
      rw [take_drop_window x n 1 (by omega)]
      simp only [List.range_succ, List.range_zero, List.nil_append, List.map_cons,
        List.map_nil, List.sum_cons, List.sum_nil, add_zero, Nat.cast_one, div_one]
      rw [List.getD_eq_getElem _ _ (by omega : n < x.length)]
  · intro hN
    have hx1 : x.length + 1 - window = 1 := by omega
    simp only [smooth_valid]
    rw [hx1]
    simp only [List.range_succ, List.range_zero, List.nil_append, List.map_cons,
      List.map_nil, List.drop_zero]
    rw [hN, List.take_length]

/-- Claim C7, witness: window 2 over a 3-element series gives 2 output
points. -/
theorem smooth_valid_spec_w :
    (smooth_valid [(1 : ℚ), 2, 3] 2).length = [(1 : ℚ), 2, 3].length - 2 + 1 :=
  (smooth_valid_spec [(1 : ℚ), 2, 3] [(0 : ℚ), 1, 2] 2 (by omega) (by simp)
    (by simp)).1

/-! ## Claims about the rate-of-rise estimator (C8) -/

theorem find_start_idx_none (times : List ℚ) (target : ℚ) (m : ℕ)
    (h : ∀ k, k ≤ m → ¬ times.getD k 0 ≤ target) :
    find_start_idx times target m = 0 := by
  induction m with
  | zero => rfl
  | succ j ih =>
    rw [find_start_idx, if_neg (h (j + 1) le_rfl)]
    exact ih fun k hk => h k (by omega)

theorem find_start_idx_found (times : List ℚ) (target : ℚ) (m j : ℕ)
    (hjm : j ≤ m) (hj : times.getD j 0 ≤ target)
    (hmax : ∀ k, j < k → k ≤ m → ¬ times.getD k 0 ≤ target) :
    find_start_idx times target m = j := by
  induction m with
  | zero =>
    have hj0 : j = 0 := by omega
    subst hj0
    rfl
  | succ i ih =>
    by_cases hje : j = i + 1
    · subst hje
      rw [find_start_idx, if_pos hj]
    · rw [find_start_idx, if_neg (hmax (i + 1) (by omega) le_rfl)]
      exact ih (by omega) fun k hk1 hk2 => hmax k hk1 (by omega)

/-- Claim C8, amended: for series of length `N ≥ 2` (the source returns an
empty array on shorter input), `calculate_ror` has length `N`, `ror[0] = 0`,
and for `0 < i < N`, with `j` the greatest index below `i` whose time gap
from `i` is at least the look-back window (scanning backward from `i - 1`,
falling back to `j = 0` when none qualifies), `ror[i]` is the difference
quotient `(x[i] - x[j]) / (t[i] - t[j]) * 60` when `t[i] > t[j]` and `0`
otherwise. -/
theorem calculate_ror_spec (times temps : List ℚ) (w : ℚ)
    (h2 : 2 ≤ times.length) (hlen : temps.length = times.length) :
    (calculate_ror times temps w).length = times.length
    ∧ (calculate_ror times temps w).getD 0 0 = 0
    ∧ ∀ i j, 0 < i → i < times.length →
        ((j < i ∧ w ≤ times.getD i 0 - times.getD j 0
            ∧ ∀ k, j < k → k < i → times.getD i 0 - times.getD k 0 < w)
          ∨ (j = 0 ∧ ∀ k, k < i → times.getD i 0 - times.getD k 0 < w)) →
        (calculate_ror times temps w).getD i 0 =
          if times.getD j 0 < times.getD i 0 then
            (temps.getD i 0 - temps.getD j 0)
              / (times.getD i 0 - times.getD j 0) * 60
          else 0 := by
  have hguard : ¬ (times.length < 2 ∨ temps.length < 2) := by omega
  refine ⟨?_, ?_, ?_⟩
  · simp [calculate_ror, hguard]
  · rw [calculate_ror, if_neg hguard, getD_map_range (by omega)]
    simp
  · intro i j hi0 hilen hj
    rw [calculate_ror, if_neg hguard, getD_map_range hilen]
    rw [if_neg (by omega : ¬ i = 0)]
    have hfs : find_start_idx times (times.getD i 0 - w) (i - 1) = j := by
      rcases hj with ⟨hji, hge, hmaxk⟩ | ⟨hj0, hnone⟩
      · refine find_start_idx_found times _ (i - 1) j (by omega)
          (by linarith) fun k hk1 hk2 => ?_
        have := hmaxk k hk1 (by omega)
        intro hle
        linarith
      · subst hj0
        refine find_start_idx_none times _ (i - 1) fun k hk => ?_
        have := hnone k (by omega)
        intro hle
        linarith
    simp only [hfs]
    rcases lt_trichotomy (times.getD j 0) (times.getD i 0) with hlt | heq | hgt
    · rw [if_pos (by linarith), if_pos hlt]
    · rw [if_neg (by rw [heq]; simp), if_neg (by rw [heq]; exact lt_irrefl _)]
    · rw [if_neg (by linarith), if_neg (by linarith)]

/-- Claim C8, counterexample: a single-sample history returns the empty
array, not a one-element array `[0]` with `ror[0] = 0` as the claim's
universal reading requires. -/
theorem calculate_ror_single_cex :
    calculate_ror [(5 : ℚ)] [(100 : ℚ)] 30 = []
    ∧ ([] : List ℚ) ≠ [(0 : ℚ)] := ⟨rfl, by simp⟩

/-- Claim C8, witness: on times `[0, 10, 40]`, temps `[100, 130, 160]` with a
30-second window, index 2 looks back to index 1 and yields
`(160 - 130) / (40 - 10) * 60`. -/
theorem calculate_ror_spec_w :
    (calculate_ror [(0 : ℚ), 10, 40] [(100 : ℚ), 130, 160] 30).getD 2 0 = 60 := by
  have h := (calculate_ror_spec [(0 : ℚ), 10, 40] [(100 : ℚ), 130, 160] 30
      (by simp) (by simp)).2.2 2 1 (by omega) (by simp)
      (Or.inl ⟨by omega, by norm_num, fun k hk1 hk2 => absurd hk2 (by omega)⟩)
  norm_num at h
  simpa using h

end Hotbox
